import Mathlib

/-!
# Shallow embedding of `src/sbr.cpp`

This file embeds the parsing layer of the certainty-factor rule system in
`src/sbr.cpp`: the text normalizer (`toLower`, `trim`), the antecedent parser
(`parsearAntecedente`), the rule loader (`cargarReglas`) and the fact loader
(`cargarHechos`).  C++ strings are modelled as `List Char`; `std::string::find`
and `rfind` are modelled by `findSub`, `rfindSub` and `rfindCharLe`;
`std::stoi` / `std::stod` are modelled by `stoi` / `stod` on the decimal forms
the two file grammars use (optional sign, digits, optional fraction; a longest
valid prefix is converted, as the C++ functions do, and failure to convert any
character models the `std::invalid_argument` exception).  File input is
modelled as the list of lines the C++ code would obtain from `std::getline`.
Error messages printed to `std::cerr` before a `return false` are modelled by
the error taxonomy `ErrKind` of the specification.
-/

namespace SBR

/-- The whitespace set `" \t\n\r\f\v"` used by the C++ `trim`
(codes 32, 9, 10, 13, 12, 11). -/
def isWsp (c : Char) : Bool :=
  c.toNat = 32 || c.toNat = 9 || c.toNat = 10 || c.toNat = 13 ||
    c.toNat = 12 || c.toNat = 11

/-- C++ `toLower`: byte-wise ASCII case folding applied to every character
(`std::tolower` in the default locale; `Char.toLower` lowers exactly
the ASCII range `A`–`Z`). -/
def toLowerStr (s : List Char) : List Char :=
  s.map Char.toLower

/-- C++ `trim`: strip leading and trailing whitespace
(`find_first_not_of` / `find_last_not_of` over the set `isWsp`);
an all-whitespace string becomes empty. -/
def trim (s : List Char) : List Char :=
  (((s.dropWhile isWsp).reverse).dropWhile isWsp).reverse

/-- `occB s pat i`: the pattern `pat` occurs in `s` as a substring starting
at index `i`. -/
def occB (s pat : List Char) (i : Nat) : Bool :=
  decide ((s.drop i).take pat.length = pat)

/-- `std::string::find(pat, start)`: the least index `i ≥ start` at which
`pat` occurs in `s`, or `none` (`npos`). -/
def findSub (s pat : List Char) (start : Nat) : Option Nat :=
  (List.range (s.length + 1)).find? (fun i => decide (start ≤ i) && occB s pat i)

/-- `std::string::rfind(pat)`: the greatest index at which `pat` occurs
in `s`, or `none` (`npos`). -/
def rfindSub (s pat : List Char) : Option Nat :=
  ((List.range (s.length + 1)).reverse).find? (fun i => occB s pat i)

/-- `std::string::rfind(c, pos)` for a single character: the greatest index
`i ≤ pos` with `s[i] = c`, or `none` (`npos`). -/
def rfindCharLe (s : List Char) (c : Char) (pos : Nat) : Option Nat :=
  ((List.range s.length).reverse).find?
    (fun i => decide (i ≤ pos) && decide (s.getD i (Char.ofNat 0) = c))

/-- Value of a digit string (most significant first). -/
def digitsToNat (ds : List Char) : Nat :=
  ds.foldl (fun a c => a * 10 + (c.toNat - 48)) 0

/-- `std::stoi`: skip leading whitespace, optional sign, then a maximal run
of decimal digits; `none` models the `std::invalid_argument` exception raised
when no digit can be converted.  Trailing non-digit characters are ignored,
exactly as in C++. -/
def stoi (s : List Char) : Option Int :=
  let t := s.dropWhile isWsp
  match t with
  | [] => none
  | c :: r =>
    if c.toNat = 45 then
      let ds := r.takeWhile Char.isDigit
      if ds.isEmpty then none else some (-(digitsToNat ds : Int))
    else if c.toNat = 43 then
      let ds := r.takeWhile Char.isDigit
      if ds.isEmpty then none else some ((digitsToNat ds : Int))
    else
      let ds := t.takeWhile Char.isDigit
      if ds.isEmpty then none else some ((digitsToNat ds : Int))

/-- Unsigned part of `stod`: integer digits, then an optional fraction
introduced by `.` (code 46); at least one digit overall is required. -/
def stodMag (u : List Char) : Option Rat :=
  let ip := u.takeWhile Char.isDigit
  let r := u.dropWhile Char.isDigit
  let fp :=
    match r with
    | [] => ([] : List Char)
    | c :: r2 => if c.toNat = 46 then r2.takeWhile Char.isDigit else []
  if ip.isEmpty && fp.isEmpty then none
  else some (mkRat ((digitsToNat ip * 10 ^ fp.length + digitsToNat fp : Nat) : Int)
    (10 ^ fp.length))

/-- `std::stod` on the decimal forms used by the two grammars: skip leading
whitespace, optional sign, digits with an optional `.`-separated fraction;
`none` models `std::invalid_argument` (no character converted).  The exotic
`strtod` forms (exponents, hexadecimal, infinities) are outside both file
grammars and are not modelled. -/
def stod (s : List Char) : Option Rat :=
  let t := s.dropWhile isWsp
  match t with
  | [] => none
  | c :: r =>
    if c.toNat = 45 then (stodMag r).map (fun q => -q)
    else if c.toNat = 43 then stodMag r
    else stodMag t

/-- C++ `struct Hecho`: a fact with a name and a certainty factor
(default `0.0`; certainties are the real values the grammar writes in
decimal, modelled as rationals). -/
structure Hecho where
  nombre : List Char
  factorCerteza : Rat
deriving DecidableEq, Repr

/-- C++ `enum class OperadorLogico`. -/
inductive OperadorLogico where
  | NINGUNO
  | Y
  | O
deriving DecidableEq, Repr

/-- C++ `struct Antecedente`. -/
structure Antecedente where
  condiciones : List Hecho
  operador : OperadorLogico
deriving DecidableEq, Repr

/-- C++ `struct Regla`. -/
structure Regla where
  id : List Char
  antecedente : Antecedente
  consecuente : Hecho
  factorCertezaRegla : Rat
deriving DecidableEq, Repr

/-- The error taxonomy of the specification; each constructor corresponds to
one `std::cerr` message followed by `return false` in `src/sbr.cpp`. -/
inductive ErrKind where
  | invalidCount
  | unexpectedEOF
  | missingDelimiter
  | missingKeyword
  | missingFCMarker
  | emptyClause
  | emptyLiteral
  | invalidNumber
deriving DecidableEq, Repr

/-- Decidable equality for `Except`, used to evaluate the parsers on concrete
inputs. -/
instance decEqExcept {ε α : Type} [DecidableEq ε] [DecidableEq α] :
    DecidableEq (Except ε α)
  | Except.error e1, Except.error e2 =>
    if h : e1 = e2 then Decidable.isTrue (by rw [h])
    else Decidable.isFalse (by intro he; cases he; exact h rfl)
  | Except.error e1, Except.ok a2 => Decidable.isFalse (by intro he; cases he)
  | Except.ok a1, Except.error e2 => Decidable.isFalse (by intro he; cases he)
  | Except.ok a1, Except.ok a2 =>
    if h : a1 = a2 then Decidable.isTrue (by rw [h])
    else Decidable.isFalse (by intro he; cases he; exact h rfl)

/-- The AND delimiter `" y "` (C++ `opY`). -/
def opYStr : List Char := " y ".data

/-- The OR delimiter `" o "` (C++ `opO`). -/
def opOStr : List Char := " o ".data

/-- The marker `"si "` (C++ `siMarker`). -/
def siMarker : List Char := "si ".data

/-- The marker `" entonces "` (C++ `entoncesMarker`). -/
def entoncesMarker : List Char := " entonces ".data

/-- The marker `"fc="` (C++ `fcMarkerLower`). -/
def fcMarkerLower : List Char := "fc=".data

/-- The keyword `"objetivo"`. -/
def kwObjetivo : List Char := "objetivo".data

/-- The colon delimiter as a one-character pattern. -/
def colonStr : List Char := ":".data

/-- The comma character (code 44). -/
def comaChar : Char := Char.ofNat 44

/-- The splitting loop of `parsearAntecedente`: starting at index `start`,
repeatedly find the delimiter in the case-folded copy `alfaLower` and cut the
original-case `alfaStr` at the same indices, trimming each piece
(`alfaStr.substr(start, pos - start)`), finishing with the trimmed tail
(`alfaStr.substr(start)`).  The fuel argument only bounds the recursion and is
always called with `alfaStr.length + 1`, which is never exhausted. -/
def splitDelim (alfa alfaLower delim : List Char) : Nat → Nat → List (List Char)
  | start, 0 => [trim (alfa.drop start)]
  | start, fuel + 1 =>
    match findSub alfaLower delim start with
    | none => [trim (alfa.drop start)]
    | some p =>
      trim ((alfa.drop start).take (p - start)) ::
        splitDelim alfa alfaLower delim (p + delim.length) (fuel)

/-- Operator selection and literal splitting of `parsearAntecedente`
(`src/sbr.cpp` lines 71–101): find the first `" y "` and the first `" o "` in
the case-folded text; `" y "` wins when it occurs and `" o "` does not occur
after it, else `" o "` wins when it occurs, else the whole trimmed text is the
single literal. -/
def anteStage (alfaStr : List Char) : OperadorLogico × List (List Char) :=
  let alfaLower := toLowerStr alfaStr
  match findSub alfaLower opYStr 0, findSub alfaLower opOStr 0 with
  | some _, none =>
    (OperadorLogico.Y, splitDelim alfaStr alfaLower opYStr 0 (alfaStr.length + 1))
  | some py, some po =>
    if py < po then
      (OperadorLogico.Y, splitDelim alfaStr alfaLower opYStr 0 (alfaStr.length + 1))
    else
      (OperadorLogico.O, splitDelim alfaStr alfaLower opOStr 0 (alfaStr.length + 1))
  | none, some _ =>
    (OperadorLogico.O, splitDelim alfaStr alfaLower opOStr 0 (alfaStr.length + 1))
  | none, none => (OperadorLogico.NINGUNO, [trim alfaStr])

/-- C++ `parsearAntecedente` (lines 71–115): split the antecedent text, then
validate: every literal must be non-empty (else the error return that the
specification calls `EmptyLiteral`), and the final condition list must be
non-empty.  `none` models `return false`. -/
def parsearAntecedente (alfaStr : List Char) : Option Antecedente :=
  let st := anteStage alfaStr
  if st.2.any List.isEmpty then none
  else if st.2.isEmpty then none
  else some ⟨st.2.map (fun l => ⟨l, 0⟩), st.1⟩

/-- Step 3 of the rule-line grammar (`src/sbr.cpp` lines 193–231): the
case-folded clause must start with `"si "` at position 0; `" entonces "` is
searched from position 3; the text between the markers is the antecedent, the
text after `" entonces "` is the consequent, both trimmed and in original
case and both required non-empty; finally the antecedent text is parsed. -/
def parseReglaSE (rid reglaSiEntonces : List Char) (fc : Rat) : Except ErrKind Regla :=
  let seLower := toLowerStr reglaSiEntonces
  match findSub seLower siMarker 0 with
  | some 0 =>
    match findSub seLower entoncesMarker siMarker.length with
    | none => .error .missingKeyword
    | some posEnt =>
      let alfaStr := trim ((reglaSiEntonces.drop siMarker.length).take
        (posEnt - siMarker.length))
      let betaStr := trim (reglaSiEntonces.drop (posEnt + entoncesMarker.length))
      if alfaStr.isEmpty then .error .emptyClause
      else if betaStr.isEmpty then .error .emptyClause
      else
        match parsearAntecedente alfaStr with
        | none => .error .emptyLiteral
        | some ant => .ok ⟨rid, ant, ⟨trim betaStr, 0⟩, fc⟩
  | _ => .error .missingKeyword

/-- One (already trimmed, non-blank) rule line (`src/sbr.cpp` lines 155–231):
split at the first `:`; in the case-folded body find the last `"fc="`
(`rfind`); find the last comma at or before that marker (`rfind` of the comma
character bounded by `posFc`);
parse the certainty after the marker with `stod`; hand the clause before the
comma to `parseReglaSE`. -/
def parseRegla (linea : List Char) : Except ErrKind Regla :=
  match findSub linea colonStr 0 with
  | none => .error .missingDelimiter
  | some posColon =>
    let rid := trim (linea.take posColon)
    let defReglaCompleta := trim (linea.drop (posColon + 1))
    match rfindSub (toLowerStr defReglaCompleta) fcMarkerLower with
    | none => .error .missingFCMarker
    | some posFc =>
      match rfindCharLe defReglaCompleta comaChar posFc with
      | none => .error .missingDelimiter
      | some posComa =>
        match stod (trim (defReglaCompleta.drop (posFc + fcMarkerLower.length))) with
        | none => .error .invalidNumber
        | some fc => parseReglaSE rid (trim (defReglaCompleta.take posComa)) fc

/-- The rule-reading loop of `cargarReglas` (lines 143–233): read the expected
number of lines; a blank line is skipped without counting (`i--`); end of
input before the count is consumed is `UnexpectedEOF`; a line that fails to
parse aborts the load, leaving the rules accumulated so far; a parsed rule is
appended in file order. -/
def loopReglas : Nat → List (List Char) → List Regla → Option ErrKind × List Regla
  | 0, _, acc => (none, acc)
  | _ + 1, [], acc => (some .unexpectedEOF, acc)
  | n + 1, l :: rest, acc =>
    let lt := trim l
    if lt.isEmpty then loopReglas (n + 1) rest acc
    else
      match parseRegla lt with
      | .error e => (some e, acc)
      | .ok r => loopReglas n rest (acc ++ [r])

/-- Outcome of `cargarReglas`: the boolean return value, the final contents of
`bc.reglas`, whether the count-mismatch warning was printed, and which fatal
error (if any) was reported. -/
structure RulesLoad where
  ok : Bool
  reglas : List Regla
  warn : Bool
  err : Option ErrKind
deriving DecidableEq, Repr

/-- C++ `cargarReglas` (lines 120–240) on the lines of the file: parse the count
line with `std::stoi` (failure is `InvalidCount`), run the rule loop, and on
success print the count-mismatch warning exactly when the number of loaded
rules differs from the declared count.  A negative count runs the loop zero
times, as the C++ `for` does. -/
def cargarReglas (lines : List (List Char)) : RulesLoad :=
  match lines with
  | [] => ⟨false, [], false, some .unexpectedEOF⟩
  | hdr :: rest =>
    match stoi (trim hdr) with
    | none => ⟨false, [], false, some .invalidCount⟩
    | some n =>
      match loopReglas n.toNat rest [] with
      | (some e, acc) => ⟨false, acc, false, some e⟩
      | (none, acc) => ⟨true, acc, decide ((acc.length : Int) ≠ n), none⟩

/-- One (already trimmed, non-blank) fact line (`src/sbr.cpp` lines 276–303):
split at the last `,` (`rfind`); the trimmed suffix after the comma,
case-folded, must have `"fc="` as its first occurrence at position 0 exactly;
the rest parses with `stod`. -/
def parseHecho (linea : List Char) : Except ErrKind Hecho :=
  match rfindCharLe linea comaChar linea.length with
  | none => .error .missingDelimiter
  | some posComa =>
    let nombre := trim (linea.take posComa)
    let fcParte := trim (linea.drop (posComa + 1))
    match findSub (toLowerStr fcParte) fcMarkerLower 0 with
    | some 0 =>
      match stod (trim (fcParte.drop fcMarkerLower.length)) with
      | none => .error .invalidNumber
      | some v => .ok ⟨nombre, v⟩
    | _ => .error .missingKeyword

/-- `std::map` assignment `m[k] = v`: replace the value of an existing key,
otherwise add the binding. -/
def mapSet : List (List Char × Rat) → List Char → Rat → List (List Char × Rat)
  | [], k, v => [(k, v)]
  | (k2, v2) :: r, k, v =>
    if k = k2 then (k, v) :: r else (k2, v2) :: mapSet r k v

/-- Lookup in the working memory `fc_memoria`. -/
def lookupMem : List (List Char × Rat) → List Char → Option Rat
  | [], _ => none
  | (k, v) :: r, n => if n = k then some v else lookupMem r n

/-- The fact-reading loop of `cargarHechos` (lines 265–307): like the rule
loop; every parsed fact is appended to `hechos_iniciales` and written into
`fc_memoria`.  Also returns the lines left unread, which the goal-reading
stage consumes from the same stream. -/
def loopHechos :
    Nat → List (List Char) → List Hecho → List (List Char × Rat) →
      (Option ErrKind × List Hecho × List (List Char × Rat) × List (List Char))
  | 0, ls, hs, m => (none, hs, m, ls)
  | _ + 1, [], hs, m => (some .unexpectedEOF, hs, m, [])
  | n + 1, l :: rest, hs, m =>
    let lt := trim l
    if lt.isEmpty then loopHechos (n + 1) rest hs m
    else
      match parseHecho lt with
      | .error e => (some e, hs, m, rest)
      | .ok h => loopHechos n rest (hs ++ [h]) (mapSet m h.nombre h.factorCerteza)

/-- Second phase of the goal-reading loop of `cargarHechos` (lines 316–336
with `leidoKeywordObjetivo = true`, and the tail check of lines 342–345):
skip blank lines; the first non-blank line, trimmed, becomes the goal name,
which the code then checks for emptiness; end of input leaves the goal name
empty, which is the `EmptyClause` error of the specification. -/
def leerGoal : List (List Char) → Except ErrKind (List Char)
  | [] => .error .emptyClause
  | l :: rest =>
    let lt := trim l
    if lt.isEmpty then leerGoal rest
    else
      let nm := trim lt
      if nm.isEmpty then .error .emptyClause else .ok nm

/-- First phase of the goal-reading loop of `cargarHechos` (lines 314–341):
skip blank lines; the first non-blank line, case-folded, must equal
`"objetivo"` (else `MissingKeyword`); end of input before the keyword is
`UnexpectedEOF`; after the keyword the goal is read by `leerGoal`. -/
def leerObjetivo : List (List Char) → Except ErrKind (List Char)
  | [] => .error .unexpectedEOF
  | l :: rest =>
    let lt := trim l
    if lt.isEmpty then leerObjetivo rest
    else if toLowerStr lt = kwObjetivo then leerGoal rest
    else .error .missingKeyword

/-- Outcome of `cargarHechos`: the boolean return value, the final contents of
`bh.hechos_iniciales`, `bh.fc_memoria` and `bh.objetivo.nombre`, whether the
count-mismatch warning was printed, and which fatal error was reported. -/
structure FactsLoad where
  ok : Bool
  hechos : List Hecho
  memoria : List (List Char × Rat)
  objetivo : List Char
  warn : Bool
  err : Option ErrKind
deriving DecidableEq, Repr

/-- C++ `cargarHechos` (lines 242–348) on the lines of the file: count line via
`std::stoi`, fact loop, count-mismatch warning, then the goal-reading loop on
the remaining lines.  On failure `bh.objetivo.nombre` is still empty. -/
def cargarHechos (lines : List (List Char)) : FactsLoad :=
  match lines with
  | [] => ⟨false, [], [], [], false, some .unexpectedEOF⟩
  | hdr :: rest =>
    match stoi (trim hdr) with
    | none => ⟨false, [], [], [], false, some .invalidCount⟩
    | some n =>
      match loopHechos n.toNat rest [] [] with
      | (some e, hs, m, _) => ⟨false, hs, m, [], false, some e⟩
      | (none, hs, m, rest2) =>
        let w := decide ((hs.length : Int) ≠ n)
        match leerObjetivo rest2 with
        | .error e => ⟨false, hs, m, [], w, some e⟩
        | .ok g => ⟨true, hs, m, g, w, none⟩

/-! ## Spec-side definitions

Definitions below this point are written from the words of the specification, for
comparison with the source translation above: a declaratively phrased
splitter/operator chooser for the antecedent grammar (claim C2), position
predicates for the marker searches (claim C4), and the last-write-wins
semantics of the working memory (claim C7). -/

/-- The space character (code 32). -/
def spChar : Char := Char.ofNat 32

/-- The character `y` (code 121). -/
def yChar : Char := Char.ofNat 121

/-- The character `o` (code 111). -/
def oChar : Char := Char.ofNat 111

/-- Spec-side splitter: walking the original-case text left to right, split at
every (greedy, non-overlapping) case-insensitive occurrence of the delimiter
`⟨space, d, space⟩`. -/
def scanSplit (d : Char) : List Char → List (List Char)
  | x :: y :: z :: rest =>
    if x.toLower = spChar ∧ y.toLower = d ∧ z.toLower = spChar then
      [] :: scanSplit d rest
    else
      List.modifyHead (fun w => x :: w) (scanSplit d (y :: z :: rest))
  | s => [s]

/-- Spec-side operator choice: scanning the text left to right, the first
case-insensitive delimiter occurrence (`" y "` or `" o "`) decides the
operator; if neither occurs the operator is `NINGUNO`. -/
def specOp : List Char → OperadorLogico
  | x :: y :: z :: rest =>
    if x.toLower = spChar ∧ y.toLower = yChar ∧ z.toLower = spChar then
      OperadorLogico.Y
    else if x.toLower = spChar ∧ y.toLower = oChar ∧ z.toLower = spChar then
      OperadorLogico.O
    else specOp (y :: z :: rest)
  | _ => OperadorLogico.NINGUNO

/-- Spec-side antecedent stage, following the words of the specification: if
`" y "` occurs and either `" o "` does not occur or the first `" y "` precedes
the first `" o "`, the operator is AND and the original-case text is split on
every occurrence of `" y "` left to right with each piece trimmed; otherwise,
if `" o "` occurs, the operator is OR with the same splitting on `" o "`;
otherwise the operator is NONE and the whole trimmed text is the single
literal. -/
def parseAntecedentSpec (s : List Char) : OperadorLogico × List (List Char) :=
  match specOp s with
  | OperadorLogico.Y => (OperadorLogico.Y, (scanSplit yChar s).map trim)
  | OperadorLogico.O => (OperadorLogico.O, (scanSplit oChar s).map trim)
  | OperadorLogico.NINGUNO => (OperadorLogico.NINGUNO, [trim s])

/-- `p` is the position of the last occurrence of `pat` in `s`. -/
def IsLastOcc (s pat : List Char) (p : Nat) : Prop :=
  occB s pat p = true ∧ ∀ j, j < s.length → p < j → occB s pat j = false

/-- `p` is the position of the last occurrence of the character `c` in `s` at
or before position `bound`. -/
def IsLastCharLe (s : List Char) (c : Char) (bound p : Nat) : Prop :=
  p < s.length ∧ p ≤ bound ∧ s.getD p (Char.ofNat 0) = c ∧
    ∀ j, j < s.length → p < j → j ≤ bound → s.getD j (Char.ofNat 0) ≠ c

instance decIsLastOcc (s pat : List Char) (p : Nat) :
    Decidable (IsLastOcc s pat p) := by
  unfold IsLastOcc
  infer_instance

instance decIsLastCharLe (s : List Char) (c : Char) (bound p : Nat) :
    Decidable (IsLastCharLe s c bound p) := by
  unfold IsLastCharLe
  infer_instance

/-- Spec-side: the certainty of the last fact with the given name in the list
(file order), if any. -/
def lastFC : List Hecho → List Char → Option Rat
  | [], _ => none
  | h :: t, nm =>
    match lastFC t nm with
    | some v => some v
    | none => if h.nombre = nm then some h.factorCerteza else none

/-! ## Characterizations of the search primitives -/

theorem find_range_some (p : Nat → Bool) :
    ∀ (n m : Nat), ((List.range n).find? p = some m ↔
      m < n ∧ p m = true ∧ ∀ k, k < m → p k = false) := by
  intro n
  induction n generalizing p with
  | zero => intro m; simp
  | succ n ih =>
    intro m
    rw [List.range_succ_eq_map]
    by_cases h0 : p 0
    · rw [List.find?_cons_of_pos _ h0]
      constructor
      · intro h
        have hm := Option.some.inj h
        subst hm
        exact ⟨Nat.succ_pos n, h0, fun k hk => absurd hk (Nat.not_lt_zero k)⟩
      · rintro ⟨hmn, hpm, hmin⟩
        rcases Nat.eq_zero_or_pos m with rfl | hpos
        · rfl
        · have := hmin 0 hpos
          rw [h0] at this
          exact absurd this (by simp)
    · rw [List.find?_cons_of_neg _ h0, List.find?_map]
      constructor
      · intro h
        rcases Option.map_eq_some'.mp h with ⟨m2, hm2, hmm⟩
        subst hmm
        obtain ⟨h1, h2, h3⟩ := (ih (p ∘ Nat.succ) m2).mp hm2
        refine ⟨by omega, h2, ?_⟩
        intro k hk
        cases k with
        | zero => exact Bool.not_eq_true _ |>.mp h0
        | succ k2 => exact h3 k2 (by omega)
      · rintro ⟨hmn, hpm, hmin⟩
        cases m with
        | zero => exact absurd hpm h0
        | succ m2 =>
          have hrec : (List.range n).find? (p ∘ Nat.succ) = some m2 :=
            (ih (p ∘ Nat.succ) m2).mpr
              ⟨by omega, hpm, fun k hk => hmin (k + 1) (by omega)⟩
          simp [hrec]

theorem find_range_rev_some (p : Nat → Bool) :
    ∀ (n m : Nat), (((List.range n).reverse).find? p = some m ↔
      m < n ∧ p m = true ∧ ∀ k, k < n → m < k → p k = false) := by
  intro n
  induction n with
  | zero => intro m; simp
  | succ n ih =>
    intro m
    rw [List.range_succ, List.reverse_append]
    simp only [List.reverse_singleton, List.singleton_append]
    by_cases hn : p n
    · rw [List.find?_cons_of_pos _ hn]
      constructor
      · intro h
        have hm := Option.some.inj h
        subst hm
        exact ⟨Nat.lt_succ_self n, hn, fun k hk1 hk2 => absurd hk1 (by omega)⟩
      · rintro ⟨hmn, hpm, hmin⟩
        have hmeq : m = n := by
          by_contra hne
          have hmlt : m < n := by omega
          have := hmin n (Nat.lt_succ_self n) hmlt
          rw [hn] at this
          exact absurd this (by simp)
        subst hmeq
        rfl
    · rw [List.find?_cons_of_neg _ hn, ih]
      constructor
      · rintro ⟨h1, h2, h3⟩
        refine ⟨by omega, h2, ?_⟩
        intro k hk1 hk2
        rcases Nat.lt_succ_iff_lt_or_eq.mp hk1 with h | rfl
        · exact h3 k h hk2
        · exact Bool.not_eq_true _ |>.mp hn
      · rintro ⟨h1, h2, h3⟩
        have hmn2 : m ≠ n := fun he => by subst he; exact hn h2
        exact ⟨by omega, h2, fun k hk1 hk2 => h3 k (by omega) hk2⟩

theorem find_range_none (p : Nat → Bool) (n : Nat) :
    ((List.range n).find? p = none ↔ ∀ k, k < n → p k = false) := by
  rw [List.find?_eq_none]
  constructor
  · intro h k hk
    exact Bool.not_eq_true _ |>.mp (h k (List.mem_range.mpr hk))
  · intro h x hx
    simp [h x (List.mem_range.mp hx)]

theorem find_range_rev_none (p : Nat → Bool) (n : Nat) :
    (((List.range n).reverse).find? p = none ↔ ∀ k, k < n → p k = false) := by
  rw [List.find?_eq_none]
  constructor
  · intro h k hk
    exact Bool.not_eq_true _ |>.mp
      (h k (List.mem_reverse.mpr (List.mem_range.mpr hk)))
  · intro h x hx
    simp [h x (List.mem_range.mp (List.mem_reverse.mp hx))]

theorem occB_true_iff {s pat : List Char} {i : Nat} :
    occB s pat i = true ↔ (s.drop i).take pat.length = pat := by
  simp [occB]

theorem occB_add_le {s pat : List Char} {i : Nat} (hpat : pat ≠ [])
    (h : occB s pat i = true) : i + pat.length ≤ s.length := by
  rw [occB_true_iff] at h
  have hlen := congrArg List.length h
  simp only [List.length_take, List.length_drop] at hlen
  have hpl : 0 < pat.length := List.length_pos.mpr hpat
  omega

theorem occB_false_of {s pat : List Char} {i : Nat} (hpat : pat ≠ [])
    (h : s.length < i + pat.length) : occB s pat i = false := by
  cases ho : occB s pat i with
  | false => rfl
  | true => exact absurd (occB_add_le hpat ho) (by omega)

theorem occB_cons_succ {c : Char} {s pat : List Char} {i : Nat} :
    occB (c :: s) pat (i + 1) = occB s pat i := by
  simp [occB]

theorem occB_drop {s pat : List Char} {k i : Nat} :
    occB (s.drop k) pat i = occB s pat (k + i) := by
  simp [occB, List.drop_drop]

theorem findSub_some {s pat : List Char} {start p : Nat} (hpat : pat ≠ []) :
    findSub s pat start = some p ↔
      start ≤ p ∧ occB s pat p = true ∧
        ∀ j, start ≤ j → j < p → occB s pat j = false := by
  rw [findSub, find_range_some]
  constructor
  · rintro ⟨h1, h2, h3⟩
    rw [Bool.and_eq_true, decide_eq_true_iff] at h2
    refine ⟨h2.1, h2.2, ?_⟩
    · intro j hj1 hj2
      have hj := h3 j hj2
      simpa [hj1] using hj
  · rintro ⟨h1, h2, h3⟩
    refine ⟨?_, ?_, ?_⟩
    · have hle := occB_add_le hpat h2
      have hpl : 0 < pat.length := List.length_pos.mpr hpat
      omega
    · rw [Bool.and_eq_true, decide_eq_true_iff]
      exact ⟨h1, h2⟩
    · intro k hk
      by_cases hks : start ≤ k
      · simp [h3 k hks hk]
      · simp [hks]

theorem findSub_none {s pat : List Char} {start : Nat} (hpat : pat ≠ []) :
    findSub s pat start = none ↔ ∀ j, start ≤ j → occB s pat j = false := by
  rw [findSub, find_range_none]
  constructor
  · intro h j hj
    by_cases hjl : j < s.length + 1
    · have hh := h j hjl
      simpa [hj] using hh
    · exact occB_false_of hpat
        (by have := List.length_pos.mpr hpat; omega)
  · intro h k hk
    by_cases hks : start ≤ k
    · simp [h k hks]
    · simp [hks]

theorem rfindSub_some {s pat : List Char} {p : Nat} (hpat : pat ≠ []) :
    rfindSub s pat = some p ↔ IsLastOcc s pat p := by
  rw [rfindSub, find_range_rev_some, IsLastOcc]
  constructor
  · rintro ⟨h1, h2, h3⟩
    exact ⟨h2, fun j hj1 hj2 => h3 j (by omega) hj2⟩
  · rintro ⟨h2, h3⟩
    refine ⟨?_, h2, ?_⟩
    · have hle := occB_add_le hpat h2
      have hpl : 0 < pat.length := List.length_pos.mpr hpat
      omega
    · intro k hk1 hk2
      by_cases hkl : k < s.length
      · exact h3 k hkl hk2
      · exact occB_false_of hpat
          (by have := List.length_pos.mpr hpat; omega)

theorem rfindSub_none {s pat : List Char} (hpat : pat ≠ []) :
    rfindSub s pat = none ↔ ∀ j, j < s.length → occB s pat j = false := by
  rw [rfindSub, find_range_rev_none]
  constructor
  · intro h j hj
    exact h j (by omega)
  · intro h k hk
    by_cases hkl : k < s.length
    · exact h k hkl
    · exact occB_false_of hpat
        (by have := List.length_pos.mpr hpat; omega)

theorem rfindCharLe_some {s : List Char} {c : Char} {pos p : Nat} :
    rfindCharLe s c pos = some p ↔ IsLastCharLe s c pos p := by
  rw [rfindCharLe, find_range_rev_some, IsLastCharLe]
  constructor
  · rintro ⟨h1, h2, h3⟩
    rw [Bool.and_eq_true, decide_eq_true_iff, decide_eq_true_iff] at h2
    refine ⟨h1, h2.1, h2.2, ?_⟩
    intro j hj1 hj2 hj3
    have hj := h3 j hj1 hj2
    simpa [hj3] using hj
  · rintro ⟨h1, h2, h3, h4⟩
    refine ⟨h1, ?_, ?_⟩
    · rw [Bool.and_eq_true, decide_eq_true_iff, decide_eq_true_iff]
      exact ⟨h2, h3⟩
    · intro k hk1 hk2
      by_cases hkp : k ≤ pos
      · simp only [decide_eq_true hkp, Bool.true_and, decide_eq_false_iff_not]
        simpa using h4 k hk1 hk2 hkp
      · simp [hkp]

theorem rfindCharLe_none {s : List Char} {c : Char} {pos : Nat} :
    rfindCharLe s c pos = none ↔
      ∀ j, j < s.length → j ≤ pos → s.getD j (Char.ofNat 0) ≠ c := by
  rw [rfindCharLe, find_range_rev_none]
  constructor
  · intro h j hj1 hj2
    have hh := h j hj1
    simpa [hj2] using hh
  · intro h k hk
    by_cases hkp : k ≤ pos
    · simp only [decide_eq_true hkp, Bool.true_and, decide_eq_false_iff_not]
      simpa using h k hk hkp
    · simp [hkp]

/-! ## Trim lemmas -/

theorem trim_eq_rdrop (s : List Char) :
    trim s = List.rdropWhile isWsp (s.dropWhile isWsp) := rfl

theorem dropWhile_rdropWhile (p : Char → Bool) (X : List Char)
    (h : X.dropWhile p = X) :
    (List.rdropWhile p X).dropWhile p = List.rdropWhile p X := by
  cases hY : List.rdropWhile p X with
  | nil => simp
  | cons y t =>
    have hpre : List.rdropWhile p X <+: X := List.rdropWhile_prefix p X
    rw [hY] at hpre
    rcases hpre with ⟨r, hr⟩
    have hpy : p y = false := by
      rw [← hr, List.cons_append, List.dropWhile_cons] at h
      by_cases hp : p y
      · rw [if_pos hp] at h
        have hlen := congrArg List.length h
        have hle : ((t ++ r).dropWhile p).length ≤ (t ++ r).length :=
          (List.dropWhile_sublist p).length_le
        simp at hlen
        simp only [List.length_append] at hle
        omega
      · exact Bool.not_eq_true _ |>.mp hp
    rw [List.dropWhile_cons, if_neg (by simp [hpy])]

theorem trim_idem (s : List Char) : trim (trim s) = trim s := by
  rw [trim_eq_rdrop s, trim_eq_rdrop, dropWhile_rdropWhile isWsp _
    (List.dropWhile_idempotent isWsp s)]
  exact List.rdropWhile_idempotent isWsp (s.dropWhile isWsp)

/-! ## Antecedent machinery: the index-based splitter of the code against the
spec-side scanner (claim C2) -/

theorem toLowerStr_length (s : List Char) : (toLowerStr s).length = s.length := by
  simp [toLowerStr]

theorem toLowerStr_cons (c : Char) (s : List Char) :
    toLowerStr (c :: s) = c.toLower :: toLowerStr s := rfl

theorem toLowerStr_drop (s : List Char) (k : Nat) :
    toLowerStr (s.drop k) = (toLowerStr s).drop k := by
  simp [toLowerStr]

theorem opYStr_eq : opYStr = [spChar, yChar, spChar] := by decide

theorem opOStr_eq : opOStr = [spChar, oChar, spChar] := by decide

theorem pat3_ne_nil {d : Char} : ([spChar, d, spChar] : List Char) ≠ [] := by
  simp

theorem occB_low_zero {d x y z : Char} {rest : List Char} :
    occB (toLowerStr (x :: y :: z :: rest)) [spChar, d, spChar] 0 = true ↔
      (x.toLower = spChar ∧ y.toLower = d ∧ z.toLower = spChar) := by
  simp [occB, toLowerStr]

theorem occB_low_short {d : Char} {s : List Char} (h : s.length < 3) (j : Nat) :
    occB (toLowerStr s) [spChar, d, spChar] j = false :=
  occB_false_of pat3_ne_nil (by simp [toLowerStr_length]; omega)

theorem scanSplit_ne_nil (d : Char) (t : List Char) : scanSplit d t ≠ [] := by
  induction t using scanSplit.induct d with
  | case1 x y z rest hc ih => simp [scanSplit, hc]
  | case2 x y z rest hc ih =>
    rw [scanSplit, if_neg hc]
    cases he : scanSplit d (y :: z :: rest) with
    | nil => exact absurd he ih
    | cons a l => simp
  | case3 s hs =>
    rcases s with - | ⟨a, - | ⟨b, - | ⟨c, r⟩⟩⟩
    · simp [scanSplit]
    · simp [scanSplit]
    · simp [scanSplit]
    · exact absurd rfl (fun he => hs a b c r he)

theorem scanSplit_no_occ (d : Char) :
    ∀ t : List Char,
      (∀ j, occB (toLowerStr t) [spChar, d, spChar] j = false) →
      scanSplit d t = [t] := by
  intro t
  induction t using scanSplit.induct d with
  | case1 x y z rest hc ih =>
    intro h
    have hocc : occB (toLowerStr (x :: y :: z :: rest)) [spChar, d, spChar] 0 = true :=
      occB_low_zero.mpr hc
    rw [h 0] at hocc
    exact absurd hocc (by simp)
  | case2 x y z rest hc ih =>
    intro h
    have htail : ∀ j, occB (toLowerStr (y :: z :: rest)) [spChar, d, spChar] j = false := by
      intro j
      have hj := h (j + 1)
      rwa [toLowerStr_cons, occB_cons_succ] at hj
    rw [scanSplit, if_neg hc, ih htail]
    simp
  | case3 s hs =>
    intro h
    rcases s with - | ⟨a, - | ⟨b, - | ⟨c, r⟩⟩⟩
    · rfl
    · rfl
    · rfl
    · exact absurd rfl (fun he => hs a b c r he)

theorem scanSplit_first_occ (d : Char) :
    ∀ (q : Nat) (t : List Char),
      occB (toLowerStr t) [spChar, d, spChar] q = true →
      (∀ j, j < q → occB (toLowerStr t) [spChar, d, spChar] j = false) →
      scanSplit d t = t.take q :: scanSplit d (t.drop (q + 3)) := by
  intro q
  induction q with
  | zero =>
    intro t hocc _
    rcases t with - | ⟨x, - | ⟨y, - | ⟨z, rest⟩⟩⟩
    · exact absurd hocc (by rw [occB_low_short (by simp) 0]; simp)
    · exact absurd hocc (by rw [occB_low_short (by simp) 0]; simp)
    · exact absurd hocc (by rw [occB_low_short (by simp) 0]; simp)
    · have hc := occB_low_zero.mp hocc
      rw [scanSplit, if_pos hc]
      rfl
  | succ q ih =>
    intro t hocc hmin
    have hlen : q + 1 + 3 ≤ t.length := by
      have := occB_add_le pat3_ne_nil hocc
      rw [toLowerStr_length] at this
      simpa using this
    rcases t with - | ⟨x, - | ⟨y, - | ⟨z, rest⟩⟩⟩
    · simp at hlen
    · simp at hlen
    · simp at hlen
    · have h0 := hmin 0 (Nat.succ_pos q)
      have hc : ¬(x.toLower = spChar ∧ y.toLower = d ∧ z.toLower = spChar) := by
        intro hcc
        rw [occB_low_zero.mpr hcc] at h0
        exact absurd h0 (by simp)
      have htocc : occB (toLowerStr (y :: z :: rest)) [spChar, d, spChar] q = true := by
        have hq := hocc
        rwa [toLowerStr_cons, occB_cons_succ] at hq
      have htmin : ∀ j, j < q →
          occB (toLowerStr (y :: z :: rest)) [spChar, d, spChar] j = false := by
        intro j hj
        have hjj := hmin (j + 1) (by omega)
        rwa [toLowerStr_cons, occB_cons_succ] at hjj
      have hdrop : List.drop (q + 1 + 3) (x :: y :: z :: rest) =
          List.drop (q + 3) (y :: z :: rest) := by
        have harith : q + 1 + 3 = (q + 3) + 1 := by omega
        rw [harith]
        rfl
      rw [scanSplit, if_neg hc, ih (y :: z :: rest) htocc htmin, hdrop,
        List.modifyHead_cons, List.take_succ_cons]

theorem splitDelim_eq_scan (d : Char) :
    ∀ (fuel start : Nat) (alfa : List Char),
      alfa.length + 1 ≤ fuel + start →
      splitDelim alfa (toLowerStr alfa) [spChar, d, spChar] start fuel =
        (scanSplit d (alfa.drop start)).map trim := by
  intro fuel
  induction fuel with
  | zero =>
    intro start alfa h
    have hd : alfa.drop start = [] := List.drop_eq_nil_iff.mpr (by omega)
    rw [splitDelim, hd]
    rfl
  | succ fuel ih =>
    intro start alfa h
    cases hf : findSub (toLowerStr alfa) [spChar, d, spChar] start with
    | none =>
      have hall := (findSub_none pat3_ne_nil).mp hf
      have hocc0 : ∀ j, occB (toLowerStr (alfa.drop start)) [spChar, d, spChar] j = false := by
        intro j
        rw [toLowerStr_drop, occB_drop]
        exact hall (start + j) (by omega)
      simp only [splitDelim, hf]
      rw [scanSplit_no_occ d _ hocc0]
      rfl
    | some p =>
      obtain ⟨hsp, hocc, hmin⟩ := (findSub_some pat3_ne_nil).mp hf
      have hocc2 : occB (toLowerStr (alfa.drop start)) [spChar, d, spChar] (p - start) = true := by
        rw [toLowerStr_drop, occB_drop]
        have heq : start + (p - start) = p := by omega
        rw [heq]
        exact hocc
      have hmin2 : ∀ j, j < p - start →
          occB (toLowerStr (alfa.drop start)) [spChar, d, spChar] j = false := by
        intro j hj
        rw [toLowerStr_drop, occB_drop]
        exact hmin (start + j) (by omega) (by omega)
      simp only [splitDelim, hf]
      rw [scanSplit_first_occ d (p - start) _ hocc2 hmin2, List.map_cons]
      congr 1
      rw [List.drop_drop]
      have harg : start + (p - start + 3) = p + 3 := by omega
      rw [harg]
      have hlen3 : ([spChar, d, spChar] : List Char).length = 3 := rfl
      rw [hlen3]
      exact ih (p + 3) alfa (by omega)

theorem findSub_cons_zero {c : Char} {t pat : List Char} (hpat : pat ≠ []) :
    findSub (c :: t) pat 0 =
      if occB (c :: t) pat 0 = true then some 0
      else (findSub t pat 0).map (fun i => i + 1) := by
  by_cases h0 : occB (c :: t) pat 0 = true
  · rw [if_pos h0]
    exact (findSub_some hpat).mpr
      ⟨Nat.le_refl 0, h0, fun j h1 h2 => absurd h2 (by omega)⟩
  · rw [if_neg h0]
    cases ht : findSub t pat 0 with
    | none =>
      rw [Option.map_none']
      refine (findSub_none hpat).mpr ?_
      intro j hj
      cases j with
      | zero => exact Bool.not_eq_true _ |>.mp h0
      | succ j2 =>
        rw [occB_cons_succ]
        exact (findSub_none hpat).mp ht j2 (Nat.zero_le _)
    | some m =>
      obtain ⟨hm0, hmocc, hmmin⟩ := (findSub_some hpat).mp ht
      rw [Option.map_some']
      refine (findSub_some hpat).mpr ⟨Nat.zero_le _, ?_, ?_⟩
      · rw [occB_cons_succ]
        exact hmocc
      · intro j h1 h2
        cases j with
        | zero => exact Bool.not_eq_true _ |>.mp h0
        | succ j2 =>
          rw [occB_cons_succ]
          exact hmmin j2 (Nat.zero_le _) (by omega)

theorem opYStr_ne_nil : opYStr ≠ [] := by decide

theorem opOStr_ne_nil : opOStr ≠ [] := by decide

theorem specOp_eq (s : List Char) :
    specOp s =
      match findSub (toLowerStr s) opYStr 0, findSub (toLowerStr s) opOStr 0 with
      | some _, none => OperadorLogico.Y
      | some py, some po =>
        if py < po then OperadorLogico.Y else OperadorLogico.O
      | none, some _ => OperadorLogico.O
      | none, none => OperadorLogico.NINGUNO := by
  induction s using specOp.induct with
  | case1 x y z rest hc =>
    have hyocc : occB (toLowerStr (x :: y :: z :: rest)) opYStr 0 = true := by
      rw [opYStr_eq]
      exact occB_low_zero.mpr hc
    have hy : findSub (toLowerStr (x :: y :: z :: rest)) opYStr 0 = some 0 :=
      (findSub_some opYStr_ne_nil).mpr
        ⟨Nat.le_refl 0, hyocc, fun j h1 h2 => absurd h2 (by omega)⟩
    rw [specOp, if_pos hc, hy]
    cases ho : findSub (toLowerStr (x :: y :: z :: rest)) opOStr 0 with
    | none => rfl
    | some po =>
      have hpo : po ≠ 0 := by
        intro he
        subst he
        obtain ⟨h1, h2, h3⟩ := (findSub_some opOStr_ne_nil).mp ho
        rw [opOStr_eq] at h2
        have hco := occB_low_zero.mp h2
        have hyo : yChar = oChar := by rw [← hc.2.1, hco.2.1]
        exact absurd hyo (by decide)
      simp [Nat.pos_of_ne_zero hpo]
  | case2 x y z rest hcy hc =>
    have hoocc : occB (toLowerStr (x :: y :: z :: rest)) opOStr 0 = true := by
      rw [opOStr_eq]
      exact occB_low_zero.mpr hc
    have ho : findSub (toLowerStr (x :: y :: z :: rest)) opOStr 0 = some 0 :=
      (findSub_some opOStr_ne_nil).mpr
        ⟨Nat.le_refl 0, hoocc, fun j h1 h2 => absurd h2 (by omega)⟩
    rw [specOp, if_neg hcy, if_pos hc, ho]
    cases hy : findSub (toLowerStr (x :: y :: z :: rest)) opYStr 0 with
    | none => rfl
    | some py => simp
  | case3 x y z rest hcy hco ih =>
    have hyocc : occB (toLowerStr (x :: y :: z :: rest)) opYStr 0 = false := by
      cases hb : occB (toLowerStr (x :: y :: z :: rest)) opYStr 0 with
      | false => rfl
      | true =>
        rw [opYStr_eq] at hb
        exact absurd (occB_low_zero.mp hb) hcy
    have hoocc : occB (toLowerStr (x :: y :: z :: rest)) opOStr 0 = false := by
      cases hb : occB (toLowerStr (x :: y :: z :: rest)) opOStr 0 with
      | false => rfl
      | true =>
        rw [opOStr_eq] at hb
        exact absurd (occB_low_zero.mp hb) hco
    have hyshift : findSub (toLowerStr (x :: y :: z :: rest)) opYStr 0 =
        (findSub (toLowerStr (y :: z :: rest)) opYStr 0).map (fun i => i + 1) := by
      rw [toLowerStr_cons, findSub_cons_zero opYStr_ne_nil, ← toLowerStr_cons,
        if_neg (by rw [hyocc]; simp)]
    have hoshift : findSub (toLowerStr (x :: y :: z :: rest)) opOStr 0 =
        (findSub (toLowerStr (y :: z :: rest)) opOStr 0).map (fun i => i + 1) := by
      rw [toLowerStr_cons, findSub_cons_zero opOStr_ne_nil, ← toLowerStr_cons,
        if_neg (by rw [hoocc]; simp)]
    rw [specOp, if_neg hcy, if_neg hco, ih, hyshift, hoshift]
    cases h1 : findSub (toLowerStr (y :: z :: rest)) opYStr 0 with
    | none =>
      cases h2 : findSub (toLowerStr (y :: z :: rest)) opOStr 0 with
      | none => rfl
      | some po => rfl
    | some py =>
      cases h2 : findSub (toLowerStr (y :: z :: rest)) opOStr 0 with
      | none => rfl
      | some po =>
        by_cases hlt : py < po
        · simp [hlt]
        · simp [hlt, fun h => hlt (Nat.lt_of_add_lt_add_right h)]
  | case4 s hs =>
    have hshort : s.length < 3 := by
      rcases s with - | ⟨a, - | ⟨b, - | ⟨c, r⟩⟩⟩
      · simp
      · simp
      · simp
      · exact absurd rfl (fun he => hs a b c r he)
    have hy : findSub (toLowerStr s) opYStr 0 = none :=
      (findSub_none opYStr_ne_nil).mpr
        (fun j hj => by rw [opYStr_eq]; exact occB_low_short hshort j)
    have ho : findSub (toLowerStr s) opOStr 0 = none :=
      (findSub_none opOStr_ne_nil).mpr
        (fun j hj => by rw [opOStr_eq]; exact occB_low_short hshort j)
    rw [hy, ho]
    rcases s with - | ⟨a, - | ⟨b, - | ⟨c, r⟩⟩⟩
    · rfl
    · rfl
    · rfl
    · exact absurd rfl (fun he => hs a b c r he)

theorem anteStage_eq_spec (s : List Char) : anteStage s = parseAntecedentSpec s := by
  rw [parseAntecedentSpec.eq_def, specOp_eq s]
  simp only [anteStage]
  cases hy : findSub (toLowerStr s) opYStr 0 with
  | none =>
    cases ho : findSub (toLowerStr s) opOStr 0 with
    | none => rfl
    | some po =>
      have hs := splitDelim_eq_scan oChar (s.length + 1) 0 s (by omega)
      rw [List.drop_zero, ← opOStr_eq] at hs
      rw [hs]
  | some py =>
    cases ho : findSub (toLowerStr s) opOStr 0 with
    | none =>
      have hs := splitDelim_eq_scan yChar (s.length + 1) 0 s (by omega)
      rw [List.drop_zero, ← opYStr_eq] at hs
      rw [hs]
    | some po =>
      by_cases hlt : py < po
      · have hs := splitDelim_eq_scan yChar (s.length + 1) 0 s (by omega)
        rw [List.drop_zero, ← opYStr_eq] at hs
        simp only [if_pos hlt]
        rw [hs]
      · have hs := splitDelim_eq_scan oChar (s.length + 1) 0 s (by omega)
        rw [List.drop_zero, ← opOStr_eq] at hs
        simp only [if_neg hlt]
        rw [hs]

/-- Claim C2: for every antecedent text, the operator is selected by the
case-insensitive literal-substring delimiters `" y "` and `" o "` — AND when
`" y "` occurs and either `" o "` does not occur or the first `" y "` precedes
the first `" o "`; otherwise OR when `" o "` occurs; otherwise NONE — and the
original-case text is split greedily left to right at every occurrence of the
winning delimiter with each piece trimmed (NONE keeps the whole trimmed text
as the single condition).  Stated as equality of the source-translated stage
`anteStage` with the spec-worded `parseAntecedentSpec`. -/
theorem c2_antecedent_operator_and_split (s : List Char) :
    anteStage s = parseAntecedentSpec s :=
  anteStage_eq_spec s

theorem splitDelim_ne_nil (alfa alow delim : List Char) :
    ∀ start fuel, splitDelim alfa alow delim start fuel ≠ [] := by
  intro start fuel
  cases fuel with
  | zero => simp [splitDelim]
  | succ f =>
    cases hf : findSub alow delim start with
    | none => simp [splitDelim, hf]
    | some p => simp [splitDelim, hf]

theorem splitDelim_two_le {alfa alow delim : List Char} {p f : Nat}
    (hf : findSub alow delim 0 = some p) :
    2 ≤ (splitDelim alfa alow delim 0 (f + 1)).length := by
  simp only [splitDelim, hf, List.length_cons]
  have hne := splitDelim_ne_nil alfa alow delim (p + delim.length) f
  have hpos : 0 < (splitDelim alfa alow delim (p + delim.length) f).length :=
    List.length_pos.mpr hne
  omega

theorem splitDelim_all_trim (alfa alow delim : List Char) :
    ∀ fuel start, ∀ x ∈ splitDelim alfa alow delim start fuel, ∃ y, x = trim y := by
  intro fuel
  induction fuel with
  | zero =>
    intro start x hx
    simp [splitDelim] at hx
    exact ⟨_, hx⟩
  | succ f ih =>
    intro start x hx
    cases hf : findSub alow delim start with
    | none =>
      simp only [splitDelim, hf] at hx
      simp at hx
      exact ⟨_, hx⟩
    | some p =>
      simp only [splitDelim, hf] at hx
      rcases List.mem_cons.mp hx with rfl | hx2
      · exact ⟨_, rfl⟩
      · exact ih _ x hx2

theorem anteStage_fst_ninguno (s : List Char)
    (h : (anteStage s).1 = OperadorLogico.NINGUNO) :
    anteStage s = (OperadorLogico.NINGUNO, [trim s]) := by
  revert h
  simp only [anteStage]
  cases hy : findSub (toLowerStr s) opYStr 0 with
  | none =>
    cases ho : findSub (toLowerStr s) opOStr 0 with
    | none => intro h; rfl
    | some po => intro h; exact absurd h (by simp)
  | some py =>
    cases ho : findSub (toLowerStr s) opOStr 0 with
    | none => intro h; exact absurd h (by simp)
    | some po =>
      by_cases hlt : py < po
      · simp only [if_pos hlt]
        intro h
        exact absurd h (by simp)
      · simp only [if_neg hlt]
        intro h
        exact absurd h (by simp)

theorem anteStage_op_split (s : List Char)
    (hop : (anteStage s).1 ≠ OperadorLogico.NINGUNO) :
    2 ≤ (anteStage s).2.length := by
  revert hop
  simp only [anteStage]
  cases hy : findSub (toLowerStr s) opYStr 0 with
  | none =>
    cases ho : findSub (toLowerStr s) opOStr 0 with
    | none => intro hop; exact absurd rfl hop
    | some po => intro _; exact splitDelim_two_le ho
  | some py =>
    cases ho : findSub (toLowerStr s) opOStr 0 with
    | none => intro _; exact splitDelim_two_le hy
    | some po =>
      by_cases hlt : py < po
      · simp only [if_pos hlt]
        intro _
        exact splitDelim_two_le hy
      · simp only [if_neg hlt]
        intro _
        exact splitDelim_two_le ho

theorem anteStage_all_trim (s : List Char) :
    ∀ x ∈ (anteStage s).2, ∃ y, x = trim y := by
  simp only [anteStage]
  cases hy : findSub (toLowerStr s) opYStr 0 with
  | none =>
    cases ho : findSub (toLowerStr s) opOStr 0 with
    | none =>
      intro x hx
      simp at hx
      exact ⟨s, hx⟩
    | some po => exact splitDelim_all_trim _ _ _ _ _
  | some py =>
    cases ho : findSub (toLowerStr s) opOStr 0 with
    | none => exact splitDelim_all_trim _ _ _ _ _
    | some po =>
      by_cases hlt : py < po
      · simp only [if_pos hlt]
        exact splitDelim_all_trim _ _ _ _ _
      · simp only [if_neg hlt]
        exact splitDelim_all_trim _ _ _ _ _

theorem parsearAntecedente_some_inv {s : List Char} {a : Antecedente}
    (h : parsearAntecedente s = some a) :
    a = ⟨(anteStage s).2.map (fun l => ⟨l, 0⟩), (anteStage s).1⟩ ∧
      (anteStage s).2 ≠ [] ∧ ∀ l ∈ (anteStage s).2, l ≠ [] := by
  rw [parsearAntecedente.eq_def] at h
  simp only [] at h
  by_cases h1 : (anteStage s).2.any List.isEmpty
  · rw [if_pos h1] at h
    cases h
  · rw [if_neg h1] at h
    by_cases h2 : (anteStage s).2.isEmpty
    · rw [if_pos h2] at h
      cases h
    · rw [if_neg h2] at h
      refine ⟨(Option.some.inj h).symm, ?_, ?_⟩
      · intro he
        rw [he] at h2
        exact h2 rfl
      · intro l hl hle
        apply h1
        rw [List.any_eq_true]
        exact ⟨l, hl, by simp [hle]⟩

/-- Claim C9: whenever `parsearAntecedente` succeeds, the resulting antecedent
has a non-empty condition list, and operator NONE comes with exactly one
condition. -/
theorem c9_antecedent_invariant (s : List Char) (a : Antecedente)
    (h : parsearAntecedente s = some a) :
    a.condiciones ≠ [] ∧
      (a.operador = OperadorLogico.NINGUNO → a.condiciones.length = 1) := by
  obtain ⟨ha, hne, hall⟩ := parsearAntecedente_some_inv h
  subst ha
  constructor
  · simp [hne]
  · intro hop
    have h2 := anteStage_fst_ninguno s hop
    simp [h2]

/-- Witness for C9 at the antecedent text `"h4"`. -/
theorem c9_antecedent_invariant_witness :
    (⟨[⟨"h4".data, 0⟩], OperadorLogico.NINGUNO⟩ : Antecedente).condiciones ≠ [] ∧
      ((⟨[⟨"h4".data, 0⟩], OperadorLogico.NINGUNO⟩ : Antecedente).operador =
          OperadorLogico.NINGUNO →
        (⟨[⟨"h4".data, 0⟩], OperadorLogico.NINGUNO⟩ : Antecedente).condiciones.length = 1) :=
  c9_antecedent_invariant ("h4".data) _ (by decide)

/-- Claim C10: whenever `parsearAntecedente` succeeds with operator AND or OR,
there are at least two conditions and every condition name is a non-empty
trimmed literal. -/
theorem c10_and_or_genuine_split (s : List Char) (a : Antecedente)
    (h : parsearAntecedente s = some a)
    (hop : a.operador ≠ OperadorLogico.NINGUNO) :
    2 ≤ a.condiciones.length ∧
      ∀ c ∈ a.condiciones, c.nombre ≠ [] ∧ trim c.nombre = c.nombre := by
  obtain ⟨ha, hne, hall⟩ := parsearAntecedente_some_inv h
  subst ha
  constructor
  · have hlen := anteStage_op_split s hop
    simpa using hlen
  · intro c hc
    rw [List.mem_map] at hc
    obtain ⟨l, hl, rfl⟩ := hc
    refine ⟨hall l hl, ?_⟩
    obtain ⟨y, hy⟩ := anteStage_all_trim s l hl
    rw [hy]
    exact trim_idem y

/-- Witness for C10 at the antecedent text `"h5 y h6"`. -/
theorem c10_and_or_genuine_split_witness :
    2 ≤ (⟨[⟨"h5".data, 0⟩, ⟨"h6".data, 0⟩], OperadorLogico.Y⟩ : Antecedente).condiciones.length ∧
      ∀ c ∈ (⟨[⟨"h5".data, 0⟩, ⟨"h6".data, 0⟩], OperadorLogico.Y⟩ : Antecedente).condiciones,
        c.nombre ≠ [] ∧ trim c.nombre = c.nombre :=
  c10_and_or_genuine_split ("h5 y h6".data) _ (by decide) (by decide)

/-- Claim C1, evaluated on the code: on the exact rules file of the claim
(count `4` followed by the four rule bodies written `"FC = ..."`), the loader
fails with the missing-marker error and loads no rule: the space before `=`
means the literal `"fc="` never occurs in the case-folded body, so the
`rfind` of step 2 reports `npos` for the very first rule line.  The claim
(and the sample test in `main`) expects a successful 4-rule load. -/
theorem c1_sample_rules_file_fails :
    cargarReglas [ "4".data,
      "R1: Si h2 o h3 Entonces h1, FC = 0.5".data,
      "R2: Si h4 Entonces h1, FC = 1".data,
      "R3: Si h5 y h6 Entonces h3, FC = 0.7".data,
      "R4: Si h7 Entonces h3, FC = -0.5".data ] =
    ⟨false, [], false, some ErrKind.missingFCMarker⟩ := by decide

/-- Claim C8: a header line with no parseable integer makes both loaders fail
with `InvalidCount`, and conversely a successful load implies the header
parsed as an integer count. -/
theorem c8_invalid_count (hdr : List Char) (rest : List (List Char)) :
    (stoi (trim hdr) = none →
      cargarReglas (hdr :: rest) =
        ⟨false, [], false, some ErrKind.invalidCount⟩ ∧
      cargarHechos (hdr :: rest) =
        ⟨false, [], [], [], false, some ErrKind.invalidCount⟩) ∧
    (∀ res : RulesLoad, cargarReglas (hdr :: rest) = res → res.ok = true →
      ∃ n, stoi (trim hdr) = some n) ∧
    (∀ res : FactsLoad, cargarHechos (hdr :: rest) = res → res.ok = true →
      ∃ n, stoi (trim hdr) = some n) := by
  refine ⟨?_, ?_, ?_⟩
  · intro h
    constructor
    · simp only [cargarReglas, h]
    · simp only [cargarHechos, h]
  · intro res hres hok
    subst hres
    cases hs : stoi (trim hdr) with
    | none =>
      simp only [cargarReglas, hs] at hok
      cases hok
    | some n => exact ⟨n, rfl⟩
  · intro res hres hok
    subst hres
    cases hs : stoi (trim hdr) with
    | none =>
      simp only [cargarHechos, hs] at hok
      cases hok
    | some n => exact ⟨n, rfl⟩

/-- Witness for C8 at the non-numeric header `"abc"`. -/
theorem c8_invalid_count_witness :
    cargarReglas [ "abc".data ] =
      ⟨false, [], false, some ErrKind.invalidCount⟩ ∧
    cargarHechos [ "abc".data ] =
      ⟨false, [], [], [], false, some ErrKind.invalidCount⟩ :=
  (c8_invalid_count ("abc".data) []).1 (by decide)

/-- Claim C6: a failing data line is atomic: the rule loop returns the error
of that line, appending nothing and leaving the rules accumulated from prior
lines untouched; the fact loop likewise leaves both `hechos_iniciales` and
`fc_memoria` exactly as they were. -/
theorem c6_fatal_error_atomicity :
    (∀ (n : Nat) (ls : List (List Char)) (l : List Char) (acc : List Regla)
        (e : ErrKind),
        trim l ≠ [] → parseRegla (trim l) = Except.error e →
        loopReglas (n + 1) (l :: ls) acc = (some e, acc)) ∧
    (∀ (n : Nat) (ls : List (List Char)) (l : List Char) (hs : List Hecho)
        (m : List (List Char × Rat)) (e : ErrKind),
        trim l ≠ [] → parseHecho (trim l) = Except.error e →
        loopHechos (n + 1) (l :: ls) hs m = (some e, hs, m, ls)) := by
  constructor
  · intro n ls l acc e hbl hpe
    simp only [loopReglas]
    rw [if_neg (by simp [hbl]), hpe]
  · intro n ls l hs m e hbl hpe
    simp only [loopHechos]
    rw [if_neg (by simp [hbl]), hpe]

/-- Witness for C6: a rule line whose clause lacks `" entonces "` fails with
`MissingKeyword` and leaves a previously accumulated rule in place; a fact
line without a comma fails with `MissingDelimiter` and leaves the fact
containers in place. -/
theorem c6_fatal_error_atomicity_witness :
    loopReglas 1 [ "R9: Si h1 luego h2, FC=0.5".data ]
        [⟨"R1".data, ⟨[⟨"a".data, 0⟩], OperadorLogico.NINGUNO⟩, ⟨"b".data, 0⟩, 1⟩] =
      (some ErrKind.missingKeyword,
        [⟨"R1".data, ⟨[⟨"a".data, 0⟩], OperadorLogico.NINGUNO⟩, ⟨"b".data, 0⟩, 1⟩]) ∧
    loopHechos 1 [ "h2 FC=0.3".data ] [⟨"h1".data, 1⟩] [("h1".data, 1)] =
      (some ErrKind.missingDelimiter, [⟨"h1".data, 1⟩], [("h1".data, 1)], []) :=
  ⟨c6_fatal_error_atomicity.1 0 [] ("R9: Si h1 luego h2, FC=0.5".data)
      [⟨"R1".data, ⟨[⟨"a".data, 0⟩], OperadorLogico.NINGUNO⟩, ⟨"b".data, 0⟩, 1⟩]
      ErrKind.missingKeyword (by decide) (by decide),
    c6_fatal_error_atomicity.2 0 [] ("h2 FC=0.3".data) [⟨"h1".data, 1⟩]
      [("h1".data, 1)] ErrKind.missingDelimiter (by decide) (by decide)⟩

theorem leerObjetivo_skip_blanks (pre : List (List Char))
    (h : ∀ x ∈ pre, trim x = []) (tail : List (List Char)) :
    leerObjetivo (pre ++ tail) = leerObjetivo tail := by
  induction pre with
  | nil => rfl
  | cons p pre2 ih =>
    rw [List.cons_append]
    simp only [leerObjetivo]
    rw [if_pos (by simp [h p (List.mem_cons_self p pre2)])]
    exact ih (fun x hx => h x (List.mem_cons_of_mem p hx))

theorem leerGoal_skip_blanks (pre : List (List Char))
    (h : ∀ x ∈ pre, trim x = []) (tail : List (List Char)) :
    leerGoal (pre ++ tail) = leerGoal tail := by
  induction pre with
  | nil => rfl
  | cons p pre2 ih =>
    rw [List.cons_append]
    simp only [leerGoal]
    rw [if_pos (by simp [h p (List.mem_cons_self p pre2)])]
    exact ih (fun x hx => h x (List.mem_cons_of_mem p hx))

/-- Claim C5: after the fact lines, the goal-reading phase skips blank lines;
a non-blank line that does not case-fold to `"objetivo"` is `MissingKeyword`;
with the keyword present the goal name is the next non-blank line, trimmed
and in original case; end of input before the keyword is `UnexpectedEOF`; and
an empty goal name (keyword read but no non-blank goal line follows) is
`EmptyClause`. -/
theorem c5_goal_reading :
    (∀ (pre : List (List Char)) (l : List Char) (rest : List (List Char)),
        (∀ x ∈ pre, trim x = []) → trim l ≠ [] →
        toLowerStr (trim l) ≠ kwObjetivo →
        leerObjetivo (pre ++ l :: rest) = Except.error ErrKind.missingKeyword) ∧
    (∀ (pre : List (List Char)) (l : List Char) (rest : List (List Char)),
        (∀ x ∈ pre, trim x = []) → trim l ≠ [] →
        toLowerStr (trim l) = kwObjetivo →
        leerObjetivo (pre ++ l :: rest) = leerGoal rest) ∧
    (∀ (pre : List (List Char)) (l : List Char) (rest : List (List Char)),
        (∀ x ∈ pre, trim x = []) → trim l ≠ [] →
        leerGoal (pre ++ l :: rest) = Except.ok (trim l)) ∧
    (∀ ls : List (List Char), (∀ x ∈ ls, trim x = []) →
        leerObjetivo ls = Except.error ErrKind.unexpectedEOF) ∧
    (∀ ls : List (List Char), (∀ x ∈ ls, trim x = []) →
        leerGoal ls = Except.error ErrKind.emptyClause) := by
  refine ⟨?_, ?_, ?_, ?_, ?_⟩
  · intro pre l rest hpre hl hkw
    rw [leerObjetivo_skip_blanks pre hpre]
    simp only [leerObjetivo]
    rw [if_neg (by simp [hl]), if_neg hkw]
  · intro pre l rest hpre hl hkw
    rw [leerObjetivo_skip_blanks pre hpre]
    simp only [leerObjetivo]
    rw [if_neg (by simp [hl]), if_pos hkw]
  · intro pre l rest hpre hl
    rw [leerGoal_skip_blanks pre hpre]
    simp only [leerGoal]
    rw [if_neg (by simp [hl]), trim_idem, if_neg (by simp [hl])]
  · intro ls hls
    induction ls with
    | nil => rfl
    | cons l ls2 ih =>
      simp only [leerObjetivo]
      rw [if_pos (by simp [hls l (List.mem_cons_self l ls2)])]
      exact ih (fun x hx => hls x (List.mem_cons_of_mem l hx))
  · intro ls hls
    induction ls with
    | nil => rfl
    | cons l ls2 ih =>
      simp only [leerGoal]
      rw [if_pos (by simp [hls l (List.mem_cons_self l ls2)])]
      exact ih (fun x hx => hls x (List.mem_cons_of_mem l hx))

/-- Witness for C5 on concrete line sequences. -/
theorem c5_goal_reading_witness :
    leerObjetivo [ " ".data, "Meta".data ] = Except.error ErrKind.missingKeyword ∧
    leerObjetivo [ " ".data, "Objetivo".data, "h1".data ] = leerGoal [ "h1".data ] ∧
    leerGoal [ "h1".data ] = Except.ok (trim ("h1".data)) ∧
    leerObjetivo [ " ".data ] = Except.error ErrKind.unexpectedEOF ∧
    leerGoal [ " ".data ] = Except.error ErrKind.emptyClause :=
  ⟨c5_goal_reading.1 [ " ".data ] ("Meta".data) [] (by decide) (by decide) (by decide),
    c5_goal_reading.2.1 [ " ".data ] ("Objetivo".data) [ "h1".data ]
      (by decide) (by decide) (by decide),
    c5_goal_reading.2.2.1 [] ("h1".data) [] (by decide) (by decide),
    c5_goal_reading.2.2.2.1 [ " ".data ] (by decide),
    c5_goal_reading.2.2.2.2 [ " ".data ] (by decide)⟩

theorem loopReglas_cons_ok {n : Nat} {l : List Char} {ls : List (List Char)}
    {acc : List Regla} {r : Regla} (hb : trim l ≠ [])
    (hp : parseRegla (trim l) = Except.ok r) :
    loopReglas (n + 1) (l :: ls) acc = loopReglas n ls (acc ++ [r]) := by
  simp only [loopReglas]
  rw [if_neg (by simp [hb]), hp]

/-- Claim C3, amended: declaring count 3 over 2 valid non-blank data lines
fails with `UnexpectedEOF` (the two parsed rules remain accumulated);
declaring count 2 over 3 valid non-blank data lines succeeds with exactly the
first two rules loaded and NO count-mismatch diagnostic (the third line is
never read, so the loaded count equals the declared count); in general, on a
successful load the diagnostic is emitted exactly when the number of loaded
rules differs from the declared count, and it never affects success. -/
theorem c3_count_and_mismatch (hdr l1 l2 l3 : List Char) (r1 r2 r3 : Regla) :
    (stoi (trim hdr) = some 3 → trim l1 ≠ [] → trim l2 ≠ [] →
      parseRegla (trim l1) = Except.ok r1 → parseRegla (trim l2) = Except.ok r2 →
      cargarReglas [hdr, l1, l2] =
        ⟨false, [r1, r2], false, some ErrKind.unexpectedEOF⟩) ∧
    (stoi (trim hdr) = some 2 → trim l1 ≠ [] → trim l2 ≠ [] → trim l3 ≠ [] →
      parseRegla (trim l1) = Except.ok r1 → parseRegla (trim l2) = Except.ok r2 →
      parseRegla (trim l3) = Except.ok r3 →
      cargarReglas [hdr, l1, l2, l3] = ⟨true, [r1, r2], false, none⟩) ∧
    (∀ (n : Int) (rest : List (List Char)) (res : RulesLoad),
      stoi (trim hdr) = some n → cargarReglas (hdr :: rest) = res →
      res.ok = true →
      (res.warn = true ↔ (res.reglas.length : Int) ≠ n)) := by
  refine ⟨?_, ?_, ?_⟩
  · intro hs hb1 hb2 hp1 hp2
    have hloop : loopReglas (3 : Int).toNat [l1, l2] [] =
        (some ErrKind.unexpectedEOF, [r1, r2]) := by
      rw [show ((3 : Int).toNat) = 2 + 1 from rfl, loopReglas_cons_ok hb1 hp1,
        show (2 : Nat) = 1 + 1 from rfl, loopReglas_cons_ok hb2 hp2]
      rfl
    simp only [cargarReglas, hs, hloop]
  · intro hs hb1 hb2 hb3 hp1 hp2 hp3
    have hloop : loopReglas (2 : Int).toNat [l1, l2, l3] [] =
        (none, [r1, r2]) := by
      rw [show ((2 : Int).toNat) = 1 + 1 from rfl, loopReglas_cons_ok hb1 hp1,
        show (1 : Nat) = 0 + 1 from rfl, loopReglas_cons_ok hb2 hp2]
      rfl
    simp only [cargarReglas, hs, hloop]
    rfl
  · intro n rest res hs hres hok
    subst hres
    rcases hloop : loopReglas n.toNat rest [] with ⟨oe, acc⟩
    cases oe with
    | some e =>
      simp only [cargarReglas, hs, hloop] at hok
      cases hok
    | none =>
      simp only [cargarReglas, hs, hloop]
      simp [decide_eq_true_iff]

/-- Counterexample to C3 as frozen: the declared count `2` with three valid
data lines loads the first two rules and succeeds, but the count-mismatch
diagnostic is NOT emitted (`warn = false`), contradicting the part of the
claim that reads "emits a non-fatal CountMismatch diagnostic". -/
theorem c3_count_and_mismatch_counterexample :
    cargarReglas [ "2".data, "R1: Si a Entonces b, FC=0.5".data,
      "R2: Si c Entonces d, FC=1".data, "R3: Si e Entonces f, FC=1".data ] =
    ⟨true,
      [⟨"R1".data, ⟨[⟨"a".data, 0⟩], OperadorLogico.NINGUNO⟩, ⟨"b".data, 0⟩, mkRat 1 2⟩,
        ⟨"R2".data, ⟨[⟨"c".data, 0⟩], OperadorLogico.NINGUNO⟩, ⟨"d".data, 0⟩, 1⟩],
      false, none⟩ := by decide

/-- Witness for C3 on concrete rule lines. -/
theorem c3_count_and_mismatch_witness :
    cargarReglas [ "3".data, "R1: Si a Entonces b, FC=0.5".data,
        "R2: Si c Entonces d, FC=1".data ] =
      ⟨false,
        [⟨"R1".data, ⟨[⟨"a".data, 0⟩], OperadorLogico.NINGUNO⟩, ⟨"b".data, 0⟩, mkRat 1 2⟩,
          ⟨"R2".data, ⟨[⟨"c".data, 0⟩], OperadorLogico.NINGUNO⟩, ⟨"d".data, 0⟩, 1⟩],
        false, some ErrKind.unexpectedEOF⟩ ∧
    ((⟨true,
        [⟨"R1".data, ⟨[⟨"a".data, 0⟩], OperadorLogico.NINGUNO⟩, ⟨"b".data, 0⟩, mkRat 1 2⟩,
          ⟨"R2".data, ⟨[⟨"c".data, 0⟩], OperadorLogico.NINGUNO⟩, ⟨"d".data, 0⟩, 1⟩],
        false, none⟩ : RulesLoad).warn = true ↔
      (((⟨true,
        [⟨"R1".data, ⟨[⟨"a".data, 0⟩], OperadorLogico.NINGUNO⟩, ⟨"b".data, 0⟩, mkRat 1 2⟩,
          ⟨"R2".data, ⟨[⟨"c".data, 0⟩], OperadorLogico.NINGUNO⟩, ⟨"d".data, 0⟩, 1⟩],
        false, none⟩ : RulesLoad).reglas.length : Int) ≠ 2)) :=
  ⟨(c3_count_and_mismatch ("3".data) ("R1: Si a Entonces b, FC=0.5".data)
      ("R2: Si c Entonces d, FC=1".data) ("R2: Si c Entonces d, FC=1".data)
      (⟨"R1".data, ⟨[⟨"a".data, 0⟩], OperadorLogico.NINGUNO⟩, ⟨"b".data, 0⟩, mkRat 1 2⟩)
      (⟨"R2".data, ⟨[⟨"c".data, 0⟩], OperadorLogico.NINGUNO⟩, ⟨"d".data, 0⟩, 1⟩)
      (⟨"R2".data, ⟨[⟨"c".data, 0⟩], OperadorLogico.NINGUNO⟩, ⟨"d".data, 0⟩, 1⟩)).1
      (by decide) (by decide) (by decide) (by rfl) (by rfl),
    (c3_count_and_mismatch ("2".data) ("R1: Si a Entonces b, FC=0.5".data)
      ("R2: Si c Entonces d, FC=1".data) ("R3: Si e Entonces f, FC=1".data)
      (⟨"R1".data, ⟨[⟨"a".data, 0⟩], OperadorLogico.NINGUNO⟩, ⟨"b".data, 0⟩, mkRat 1 2⟩)
      (⟨"R2".data, ⟨[⟨"c".data, 0⟩], OperadorLogico.NINGUNO⟩, ⟨"d".data, 0⟩, 1⟩)
      (⟨"R3".data, ⟨[⟨"e".data, 0⟩], OperadorLogico.NINGUNO⟩, ⟨"f".data, 0⟩, 1⟩)).2.2
      2 [ "R1: Si a Entonces b, FC=0.5".data, "R2: Si c Entonces d, FC=1".data,
        "R3: Si e Entonces f, FC=1".data ]
      (⟨true,
        [⟨"R1".data, ⟨[⟨"a".data, 0⟩], OperadorLogico.NINGUNO⟩, ⟨"b".data, 0⟩, mkRat 1 2⟩,
          ⟨"R2".data, ⟨[⟨"c".data, 0⟩], OperadorLogico.NINGUNO⟩, ⟨"d".data, 0⟩, 1⟩],
        false, none⟩)
      (by rfl) (by rfl) (by rfl)⟩

theorem lookupMem_mapSet (m : List (List Char × Rat)) (k : List Char) (v : Rat) :
    ∀ nm, lookupMem (mapSet m k v) nm = if nm = k then some v else lookupMem m nm := by
  induction m with
  | nil =>
    intro nm
    simp [mapSet, lookupMem]
  | cons p m2 ih =>
    intro nm
    rcases p with ⟨k2, v2⟩
    by_cases hk : k = k2
    · subst hk
      simp only [mapSet, if_pos rfl, lookupMem]
      by_cases hnm : nm = k
      · simp [hnm]
      · simp [hnm]
    · simp only [mapSet, if_neg hk, lookupMem]
      by_cases hnm2 : nm = k2
      · rw [if_pos hnm2, if_pos hnm2,
          if_neg (fun he => hk (he.symm.trans hnm2))]
      · rw [if_neg hnm2, if_neg hnm2, ih nm]

theorem lastFC_append (hs : List Hecho) (h : Hecho) (nm : List Char) :
    lastFC (hs ++ [h]) nm =
      if h.nombre = nm then some h.factorCerteza else lastFC hs nm := by
  induction hs with
  | nil => simp [lastFC]
  | cons h2 t ih =>
    by_cases hn : h.nombre = nm
    · rw [List.cons_append]
      simp only [lastFC, List.append_eq, ih, if_pos hn]
    · rw [List.cons_append]
      simp only [lastFC, List.append_eq, ih, if_neg hn]

theorem loopHechos_inv :
    ∀ (ls : List (List Char)) (n : Nat) (hs : List Hecho)
      (m : List (List Char × Rat)),
      (∀ nm, lookupMem m nm = lastFC hs nm) →
      ∀ nm, lookupMem (loopHechos n ls hs m).2.2.1 nm =
        lastFC (loopHechos n ls hs m).2.1 nm := by
  intro ls
  induction ls with
  | nil =>
    intro n hs m hinv nm
    cases n with
    | zero => exact hinv nm
    | succ n2 => exact hinv nm
  | cons l rest ih =>
    intro n hs m hinv nm
    cases n with
    | zero => exact hinv nm
    | succ n2 =>
      by_cases hb : (trim l).isEmpty
      · have hstep : loopHechos (n2 + 1) (l :: rest) hs m =
            loopHechos (n2 + 1) rest hs m := by
          simp only [loopHechos]
          rw [if_pos hb]
        rw [hstep]
        exact ih (n2 + 1) hs m hinv nm
      · cases hp : parseHecho (trim l) with
        | error e =>
          have hstep : loopHechos (n2 + 1) (l :: rest) hs m =
              (some e, hs, m, rest) := by
            simp only [loopHechos]
            rw [if_neg hb, hp]
          rw [hstep]
          exact hinv nm
        | ok h =>
          have hstep : loopHechos (n2 + 1) (l :: rest) hs m =
              loopHechos n2 rest (hs ++ [h])
                (mapSet m h.nombre h.factorCerteza) := by
            simp only [loopHechos]
            rw [if_neg hb, hp]
          rw [hstep]
          apply ih
          intro nm2
          rw [lookupMem_mapSet, lastFC_append]
          by_cases he : nm2 = h.nombre
          · rw [if_pos he, if_pos he.symm]
          · rw [if_neg he, if_neg (fun hh => he hh.symm), hinv nm2]

/-- Claim C7: after a successful `cargarHechos`, looking a name up in the
working memory gives exactly the certainty of the last fact with that name in
`hechos_iniciales` (file order, last write wins), and `none` for every other
name; the memory is exactly the seeding produced by the fact loop, never
updated afterwards. -/
theorem c7_working_memory (lines : List (List Char)) (res : FactsLoad)
    (hres : cargarHechos lines = res) (hok : res.ok = true) :
    ∀ nm, lookupMem res.memoria nm = lastFC res.hechos nm := by
  subst hres
  cases lines with
  | nil => simp [cargarHechos] at hok
  | cons hdr rest =>
    cases hs : stoi (trim hdr) with
    | none =>
      simp only [cargarHechos, hs] at hok
      cases hok
    | some n =>
      rcases hloop : loopHechos n.toNat rest [] [] with ⟨oe, hs2, m2, rest2⟩
      have hinv := loopHechos_inv rest n.toNat [] [] (fun nm => rfl)
      rw [hloop] at hinv
      cases oe with
      | some e =>
        simp only [cargarHechos, hs, hloop] at hok
        cases hok
      | none =>
        cases hg : leerObjetivo rest2 with
        | error e =>
          simp only [cargarHechos, hs, hloop, hg] at hok
          cases hok
        | ok g =>
          simp only [cargarHechos, hs, hloop, hg]
          intro nm
          exact hinv nm

/-- Witness for C7 on a facts file with a repeated name (`h2` appears twice;
the memory holds the later certainty), looked up at a present and at an
absent name. -/
theorem c7_working_memory_witness :
    lookupMem [("h2".data, mkRat 6 10)] ("h2".data) =
      lastFC [⟨"h2".data, mkRat 3 10⟩, ⟨"h2".data, mkRat 6 10⟩] ("h2".data) ∧
    lookupMem [("h2".data, mkRat 6 10)] ("zz".data) =
      lastFC [⟨"h2".data, mkRat 3 10⟩, ⟨"h2".data, mkRat 6 10⟩] ("zz".data) :=
  ⟨c7_working_memory
      [ "2".data, "h2, FC=0.3".data, "h2, FC=0.6".data, "Objetivo".data, "h1".data ]
      ⟨true, [⟨"h2".data, mkRat 3 10⟩, ⟨"h2".data, mkRat 6 10⟩],
        [("h2".data, mkRat 6 10)], "h1".data, false, none⟩
      (by decide) (by decide) ("h2".data),
    c7_working_memory
      [ "2".data, "h2, FC=0.3".data, "h2, FC=0.6".data, "Objetivo".data, "h1".data ]
      ⟨true, [⟨"h2".data, mkRat 3 10⟩, ⟨"h2".data, mkRat 6 10⟩],
        [("h2".data, mkRat 6 10)], "h1".data, false, none⟩
      (by decide) (by decide) ("zz".data)⟩

theorem fcMarkerLower_ne_nil : fcMarkerLower ≠ [] := by decide

/-- Claim C4: the two loaders locate the `fc=` marker asymmetrically.
In `parseRegla` (rule lines) the marker is the LAST case-insensitive
occurrence of `"fc="` anywhere in the body after the colon — no occurrence is
`MissingFCMarker`; the clause/certainty split is the last comma at or before
that marker — no such comma is `MissingDelimiter`; when both exist the clause
handed on is exactly the trimmed text before that comma and the certainty is
read after the marker.  In `parseHecho` (fact lines) the name is everything
before the LAST comma, and the trimmed suffix after it, case-folded, must
have `"fc="` at position 0 exactly, otherwise `MissingKeyword`. -/
theorem c4_fc_marker_asymmetry :
    (∀ (l : List Char) (posColon : Nat),
        findSub l colonStr 0 = some posColon →
        (∀ i, i < (toLowerStr (trim (l.drop (posColon + 1)))).length →
          occB (toLowerStr (trim (l.drop (posColon + 1)))) fcMarkerLower i = false) →
        parseRegla l = Except.error ErrKind.missingFCMarker) ∧
    (∀ (l : List Char) (posColon p : Nat),
        findSub l colonStr 0 = some posColon →
        IsLastOcc (toLowerStr (trim (l.drop (posColon + 1)))) fcMarkerLower p →
        (∀ j, j < (trim (l.drop (posColon + 1))).length → j ≤ p →
          (trim (l.drop (posColon + 1))).getD j (Char.ofNat 0) ≠ comaChar) →
        parseRegla l = Except.error ErrKind.missingDelimiter) ∧
    (∀ (l : List Char) (posColon p c2 : Nat) (v : Rat),
        findSub l colonStr 0 = some posColon →
        IsLastOcc (toLowerStr (trim (l.drop (posColon + 1)))) fcMarkerLower p →
        IsLastCharLe (trim (l.drop (posColon + 1))) comaChar p c2 →
        stod (trim ((trim (l.drop (posColon + 1))).drop (p + 3))) = some v →
        parseRegla l = parseReglaSE (trim (l.take posColon))
          (trim ((trim (l.drop (posColon + 1))).take c2)) v) ∧
    (∀ (l : List Char) (p : Nat),
        IsLastCharLe l comaChar l.length p →
        occB (toLowerStr (trim (l.drop (p + 1)))) fcMarkerLower 0 = false →
        parseHecho l = Except.error ErrKind.missingKeyword) ∧
    (∀ (l : List Char) (p : Nat) (h : Hecho),
        IsLastCharLe l comaChar l.length p →
        parseHecho l = Except.ok h →
        h.nombre = trim (l.take p)) := by
  refine ⟨?_, ?_, ?_, ?_, ?_⟩
  · intro l posColon hcolon hno
    have hrf : rfindSub (toLowerStr (trim (l.drop (posColon + 1)))) fcMarkerLower =
        none := (rfindSub_none fcMarkerLower_ne_nil).mpr hno
    simp only [parseRegla, hcolon, hrf]
  · intro l posColon p hcolon hlast hnoc
    have hrf : rfindSub (toLowerStr (trim (l.drop (posColon + 1)))) fcMarkerLower =
        some p := (rfindSub_some fcMarkerLower_ne_nil).mpr hlast
    have hcm : rfindCharLe (trim (l.drop (posColon + 1))) comaChar p = none :=
      rfindCharLe_none.mpr hnoc
    simp only [parseRegla, hcolon, hrf, hcm]
  · intro l posColon p c2 v hcolon hlast hcomma hstod
    have hrf : rfindSub (toLowerStr (trim (l.drop (posColon + 1)))) fcMarkerLower =
        some p := (rfindSub_some fcMarkerLower_ne_nil).mpr hlast
    have hcm : rfindCharLe (trim (l.drop (posColon + 1))) comaChar p = some c2 :=
      rfindCharLe_some.mpr hcomma
    have h3 : fcMarkerLower.length = 3 := rfl
    simp only [parseRegla, hcolon, hrf, hcm, h3, hstod]
  · intro l p hcomma hocc0
    have hcm : rfindCharLe l comaChar l.length = some p :=
      rfindCharLe_some.mpr hcomma
    cases hf : findSub (toLowerStr (trim (l.drop (p + 1)))) fcMarkerLower 0 with
    | none => simp only [parseHecho, hcm, hf]
    | some k =>
      cases k with
      | zero =>
        obtain ⟨-, hocc, -⟩ := (findSub_some fcMarkerLower_ne_nil).mp hf
        rw [hocc0] at hocc
        exact absurd hocc (by simp)
      | succ k2 => simp only [parseHecho, hcm, hf]
  · intro l p h hcomma hp
    have hcm : rfindCharLe l comaChar l.length = some p :=
      rfindCharLe_some.mpr hcomma
    simp only [parseHecho, hcm] at hp
    cases hf : findSub (toLowerStr (trim (l.drop (p + 1)))) fcMarkerLower 0 with
    | none =>
      rw [hf] at hp
      simp at hp
    | some k =>
      rw [hf] at hp
      cases k with
      | zero =>
        cases hst : stod (trim ((trim (l.drop (p + 1))).drop fcMarkerLower.length)) with
        | none =>
          rw [hst] at hp
          simp at hp
        | some v =>
          rw [hst] at hp
          injection hp with h1
          rw [← h1]
      | succ k2 => simp at hp

/-- Witness for C4 on concrete rule and fact lines: a body without `"fc="`
(the space in `"FC 0.5"` breaks the marker), a body whose marker is not
preceded by a comma, a fully well-formed rule line, a fact line whose suffix
does not start with `"fc="`, and a well-formed fact line. -/
theorem c4_fc_marker_asymmetry_witness :
    parseRegla ("R1: Si a Entonces b, FC 0.5".data) =
      Except.error ErrKind.missingFCMarker ∧
    parseRegla ("R1: Si a Entonces b FC=0.5".data) =
      Except.error ErrKind.missingDelimiter ∧
    parseRegla ("R1: Si a Entonces b, FC=0.5".data) =
      parseReglaSE (trim (("R1: Si a Entonces b, FC=0.5".data).take 2))
        (trim ((trim (("R1: Si a Entonces b, FC=0.5".data).drop 3)).take 15))
        (mkRat 1 2) ∧
    parseHecho ("h2, 0.3".data) = Except.error ErrKind.missingKeyword ∧
    (⟨trim (("h2, FC=0.3".data).take 2), mkRat 3 10⟩ : Hecho).nombre =
      trim (("h2, FC=0.3".data).take 2) :=
  ⟨c4_fc_marker_asymmetry.1 ("R1: Si a Entonces b, FC 0.5".data) 2
      (by rfl) (by decide),
    c4_fc_marker_asymmetry.2.1 ("R1: Si a Entonces b FC=0.5".data) 2 16
      (by rfl) (by decide) (by decide),
    c4_fc_marker_asymmetry.2.2.1 ("R1: Si a Entonces b, FC=0.5".data) 2 17 15
      (mkRat 1 2) (by rfl) (by decide) (by decide) (by rfl),
    c4_fc_marker_asymmetry.2.2.2.1 ("h2, 0.3".data) 2 (by decide) (by decide),
    c4_fc_marker_asymmetry.2.2.2.2 ("h2, FC=0.3".data) 2
      (⟨trim (("h2, FC=0.3".data).take 2), mkRat 3 10⟩) (by decide) (by rfl)⟩

end SBR
